import Mathlib

/-!
Verification of `src/gadgets/random_access.rs` from zama-ai/plonky2: the
random-access (lookup-by-secret-index) circuit gadget on the PLONK-style
`CircuitBuilder`.  The gadget itself (`random_access`,
`random_access_extension`, `random_access_padded`) is translated from the
source; the collaborating builder primitives (`Target`, `connect`,
`add_gate`, `connect_extension`, `zero_extension`) and the
`RandomAccessGate` wire-address functions live outside the provided source
and are modelled from the specification.
-/

/-- Modelled from the spec: a wire reference (`Target` in
`iop/target.rs`, not part of the provided source).  It identifies one
field-element-valued slot in the circuit: either a caller-held virtual
wire, a wire of a materialized gate, addressed by (gate index, local wire
offset), or the builder's zero-constant wire used for padding. -/
inductive Target where
  | virtualTarget (index : Nat)
  | wire (gateIndex : Nat) (offset : Nat)
  | zeroConst
deriving DecidableEq, Repr

/-- Modelled from the spec: an extension element is an ordered D-tuple of
wire references (`ExtensionTarget<D>`), one per coordinate of the degree-D
field extension. -/
def ExtensionTarget (D : Nat) := Fin D → Target

instance : DecidableEq (ExtensionTarget D) :=
  inferInstanceAs (DecidableEq (Fin D → Target))

/-- The `RandomAccessGate` parameterization: number of coordinate copies
and the list length (`vec_size`).  Its wire layout is consumed through the
address functions below. -/
structure RandomAccessGate where
  copies : Nat
  vecSize : Nat
deriving DecidableEq, Repr

def RandomAccessGate.new (copies vecSize : Nat) : RandomAccessGate :=
  ⟨copies, vecSize⟩

/-- Modelled from the spec: the gate's (list position, copy) → list-item
wire offset address function (`gates/random_access.rs`, not part of the
provided source).  Each copy owns a block of `vecSize + 2` wires: the
access index, the claimed element, then the `vecSize` list items. -/
def RandomAccessGate.wire_list_item (g : RandomAccessGate) (i copy : Nat) : Nat :=
  (g.vecSize + 2) * copy + 2 + i

/-- Modelled from the spec: the gate's copy → access-index wire offset. -/
def RandomAccessGate.wire_access_index (g : RandomAccessGate) (copy : Nat) : Nat :=
  (g.vecSize + 2) * copy

/-- Modelled from the spec: the gate's copy → claimed-element wire offset. -/
def RandomAccessGate.wire_claimed_element (g : RandomAccessGate) (copy : Nat) : Nat :=
  (g.vecSize + 2) * copy + 1

/-- Modelled from the spec: the circuit builder state visible to this
gadget — the growing gate list and the accumulated equality constraints
("connections") between wire references, both appended in call order. -/
structure CircuitBuilder where
  gates : List RandomAccessGate
  connections : List (Target × Target)
deriving DecidableEq, Repr

/-- Modelled from the spec: `connect(x, y)` records one unconditional
equality constraint between two wires. -/
def CircuitBuilder.connect (b : CircuitBuilder) (x y : Target) : CircuitBuilder :=
  { b with connections := b.connections ++ [(x, y)] }

/-- Modelled from the spec: `add_gate` appends a gate instance to the gate
list and returns its position. -/
def CircuitBuilder.add_gate (b : CircuitBuilder) (g : RandomAccessGate) :
    CircuitBuilder × Nat :=
  ({ b with gates := b.gates ++ [g] }, b.gates.length)

/-- Modelled from the spec: `connect_extension` equates two extension
elements coordinate-wise — D coordinate equality constraints. -/
def CircuitBuilder.connect_extension (b : CircuitBuilder)
    (x y : ExtensionTarget D) : CircuitBuilder :=
  (List.finRange D).foldl (fun acc c => acc.connect (x c) (y c)) b

/-- Modelled from the spec: `zero_extension()` supplies the fixed neutral
(zero) extension element; it is a constant-wire constructor and does not
change the builder state. -/
def CircuitBuilder.zero_extension (_b : CircuitBuilder) (D : Nat) :
    ExtensionTarget D :=
  fun _ => Target.zeroConst

/-- Rust `Vec::resize(new_len, value)`: truncate when the vector is longer
than `new_len`, extend with copies of `value` when it is shorter. -/
def listResize (v : List α) (newLen : Nat) (value : α) : List α :=
  if newLen ≤ v.length then v.take newLen
  else v ++ List.replicate (newLen - v.length) value

/-- `CircuitBuilder::random_access` (src/gadgets/random_access.rs:11-31).
The `debug_assert!(!v.is_empty())` is modelled as the fallible
invalid-input check: an empty list yields `none` before any builder
mutation. -/
def CircuitBuilder.random_access (b : CircuitBuilder)
    (access_index claimed_element : Target) (v : List Target) :
    Option CircuitBuilder :=
  if v.isEmpty then none
  else if h : v.length = 1 then
    some (b.connect claimed_element (v.get ⟨0, by omega⟩))
  else
    let gate := RandomAccessGate.new 1 v.length
    let p := b.add_gate gate
    let gate_index := p.2
    let copy := 0
    let b1 := v.enum.foldl
      (fun acc q =>
        acc.connect q.2 (Target.wire gate_index (gate.wire_list_item q.1 copy)))
      p.1
    let b2 := b1.connect access_index
      (Target.wire gate_index (gate.wire_access_index copy))
    some (b2.connect claimed_element
      (Target.wire gate_index (gate.wire_claimed_element copy)))

/-- `CircuitBuilder::random_access_extension`
(src/gadgets/random_access.rs:35-64). -/
def CircuitBuilder.random_access_extension (b : CircuitBuilder)
    (access_index : Target) (claimed_element : ExtensionTarget D)
    (v : List (ExtensionTarget D)) : Option CircuitBuilder :=
  if v.isEmpty then none
  else if h : v.length = 1 then
    some (b.connect_extension claimed_element (v.get ⟨0, by omega⟩))
  else
    let gate := RandomAccessGate.new D v.length
    let p := b.add_gate gate
    let gate_index := p.2
    some ((List.finRange D).foldl
      (fun acc copy =>
        let acc1 := v.enum.foldl
          (fun acc2 q =>
            acc2.connect (q.2 copy)
              (Target.wire gate_index (gate.wire_list_item q.1 copy.val)))
          acc
        let acc2 := acc1.connect access_index
          (Target.wire gate_index (gate.wire_access_index copy.val))
        acc2.connect (claimed_element copy)
          (Target.wire gate_index (gate.wire_claimed_element copy.val)))
      p.1)

/-- `CircuitBuilder::random_access_padded`
(src/gadgets/random_access.rs:68-84).  Note the source resizes to the
constant `8`, not to `min_length`. -/
def CircuitBuilder.random_access_padded (b : CircuitBuilder)
    (access_index : Target) (claimed_element : ExtensionTarget D)
    (v : List (ExtensionTarget D)) (min_length : Nat) : Option CircuitBuilder :=
  if v.isEmpty then none
  else if h : v.length = 1 then
    some (b.connect_extension claimed_element (v.get ⟨0, by omega⟩))
  else
    let zero := b.zero_extension D
    let v2 := if v.length < min_length then listResize v 8 zero else v
    b.random_access_extension access_index claimed_element v2

/-! ### Sample concrete inputs used by witnesses and counterexamples -/

def sampleBuilder : CircuitBuilder := ⟨[], []⟩

def vt (n : Nat) : Target := Target.virtualTarget n

def sampleExt2 (n : Nat) : ExtensionTarget 2 :=
  fun c => Target.virtualTarget (10 * n + c.val)

def sampleExt1 (n : Nat) : ExtensionTarget 1 :=
  fun _ => Target.virtualTarget n

def sampleBuilder' : CircuitBuilder := ⟨[], [(vt 9, vt 9)]⟩

/-! ### Helper lemmas about the builder primitives -/

theorem connect_eq (b : CircuitBuilder) (x y : Target) :
    b.connect x y = ⟨b.gates, b.connections ++ [(x, y)]⟩ := rfl

/-- A fold of `connect` calls appends exactly the corresponding pairs, in
order, and touches nothing else. -/
theorem foldl_connect_eq {α : Type} (f g : α → Target) :
    ∀ (l : List α) (b : CircuitBuilder),
      l.foldl (fun acc a => acc.connect (f a) (g a)) b
        = ⟨b.gates, b.connections ++ l.map (fun a => (f a, g a))⟩ := by
  intro l
  induction l with
  | nil => intro b; simp
  | cons a l ih =>
    intro b
    rw [List.foldl_cons, ih]
    simp [CircuitBuilder.connect]

/-- A fold of steps that each only append connections appends the
concatenation of the per-step connection lists. -/
theorem foldl_emit_eq {α : Type} (step : CircuitBuilder → α → CircuitBuilder)
    (cs : α → List (Target × Target))
    (hstep : ∀ b a, step b a = ⟨b.gates, b.connections ++ cs a⟩) :
    ∀ (l : List α) (b : CircuitBuilder),
      l.foldl step b = ⟨b.gates, b.connections ++ (l.map cs).flatten⟩ := by
  intro l
  induction l with
  | nil => intro b; simp
  | cons a l ih =>
    intro b
    simp only [List.foldl_cons, hstep, ih, List.map_cons, List.flatten_cons,
      List.append_assoc]

theorem connect_extension_eq (b : CircuitBuilder) (x y : ExtensionTarget D) :
    b.connect_extension x y
      = ⟨b.gates, b.connections ++ (List.finRange D).map (fun c => (x c, y c))⟩ := by
  have h := foldl_connect_eq (fun c : Fin D => x c) (fun c : Fin D => y c)
    (List.finRange D) b
  exact h

/-! ### Exact effect of each entry point on the non-trivial path -/

/-- Exact builder state produced by `random_access` on a list of length at
least two. -/
theorem random_access_spec (b : CircuitBuilder) (ai ce : Target)
    (v : List Target) (h : 2 ≤ v.length) :
    b.random_access ai ce v = some
      ⟨b.gates ++ [RandomAccessGate.new 1 v.length],
       b.connections
         ++ (v.enum.map (fun q => (q.2,
              Target.wire b.gates.length
                ((RandomAccessGate.new 1 v.length).wire_list_item q.1 0)))
            ++ [(ai, Target.wire b.gates.length
                  ((RandomAccessGate.new 1 v.length).wire_access_index 0)),
                (ce, Target.wire b.gates.length
                  ((RandomAccessGate.new 1 v.length).wire_claimed_element 0))])⟩ := by
  have hne : v.isEmpty = false := by
    cases v with
    | nil => simp at h
    | cons a l => rfl
  have h1 : ¬ v.length = 1 := by omega
  unfold CircuitBuilder.random_access
  rw [hne]
  simp only [Bool.false_eq_true, if_false, dif_neg h1, CircuitBuilder.add_gate]
  rw [foldl_connect_eq (fun q : Nat × Target => q.2)
    (fun q : Nat × Target =>
      Target.wire b.gates.length
        ((RandomAccessGate.new 1 v.length).wire_list_item q.1 0))]
  simp [CircuitBuilder.connect, List.append_assoc]

/-- A fold of steps already in record form appends the concatenation of
the per-step connection lists. -/
theorem foldl_record_eq {α : Type} (cs : α → List (Target × Target)) :
    ∀ (l : List α) (b : CircuitBuilder),
      l.foldl (fun acc a => (⟨acc.gates, acc.connections ++ cs a⟩ : CircuitBuilder)) b
        = ⟨b.gates, b.connections ++ (l.map cs).flatten⟩ := by
  intro l
  induction l with
  | nil => intro b; simp
  | cons a l ih =>
    intro b
    rw [List.foldl_cons, ih]
    simp

theorem flatten_map_singleton {α β : Type} (f : α → β) (l : List α) :
    (l.map (fun a => [f a])).flatten = l.map f := by
  induction l with
  | nil => simp
  | cons a l ih => simp [ih]

/-- Exact builder state produced by `random_access_extension` on a list of
length at least two. -/
theorem random_access_extension_spec {D : Nat} (b : CircuitBuilder) (ai : Target)
    (ce : ExtensionTarget D) (v : List (ExtensionTarget D)) (h : 2 ≤ v.length) :
    b.random_access_extension ai ce v = some
      ⟨b.gates ++ [RandomAccessGate.new D v.length],
       b.connections ++
         ((List.finRange D).map (fun copy =>
            v.enum.map (fun q => (q.2 copy,
              Target.wire b.gates.length
                ((RandomAccessGate.new D v.length).wire_list_item q.1 copy.val)))
            ++ [(ai, Target.wire b.gates.length
                  ((RandomAccessGate.new D v.length).wire_access_index copy.val)),
                (ce copy, Target.wire b.gates.length
                  ((RandomAccessGate.new D v.length).wire_claimed_element copy.val))])).flatten⟩ := by
  have hne : v.isEmpty = false := by
    cases v with
    | nil => simp at h
    | cons a l => rfl
  have h1 : ¬ v.length = 1 := by omega
  unfold CircuitBuilder.random_access_extension
  rw [hne]
  simp only [Bool.false_eq_true, if_false, dif_neg h1, CircuitBuilder.add_gate,
    foldl_connect_eq, connect_eq, foldl_record_eq, flatten_map_singleton,
    List.append_assoc, List.singleton_append, List.cons_append, List.nil_append]

/-! ### Trivial path and padding helpers -/

theorem random_access_one (b : CircuitBuilder) (ai ce x : Target) :
    b.random_access ai ce [x] = some ⟨b.gates, b.connections ++ [(ce, x)]⟩ := rfl

theorem random_access_extension_one {D : Nat} (b : CircuitBuilder) (ai : Target)
    (ce x : ExtensionTarget D) :
    b.random_access_extension ai ce [x]
      = some ⟨b.gates,
          b.connections ++ (List.finRange D).map (fun c => (ce c, x c))⟩ := by
  have hstep : b.random_access_extension ai ce [x]
      = some (b.connect_extension ce x) := rfl
  rw [hstep, connect_extension_eq]

theorem random_access_padded_one {D : Nat} (b : CircuitBuilder) (ai : Target)
    (ce x : ExtensionTarget D) (ml : Nat) :
    b.random_access_padded ai ce [x] ml
      = some ⟨b.gates,
          b.connections ++ (List.finRange D).map (fun c => (ce c, x c))⟩ := by
  have hstep : b.random_access_padded ai ce [x] ml
      = some (b.connect_extension ce x) := rfl
  rw [hstep, connect_extension_eq]

/-- On lists of length at least two, the padded entry point is exactly the
extension entry point applied to the (possibly) resized list. -/
theorem random_access_padded_eq {D : Nat} (b : CircuitBuilder) (ai : Target)
    (ce : ExtensionTarget D) (v : List (ExtensionTarget D)) (ml : Nat)
    (h : 2 ≤ v.length) :
    b.random_access_padded ai ce v ml
      = b.random_access_extension ai ce
          (if v.length < ml then listResize v 8 (b.zero_extension D) else v) := by
  have hne : v.isEmpty = false := by
    cases v with
    | nil => simp at h
    | cons a l => rfl
  have h1 : ¬ v.length = 1 := by omega
  unfold CircuitBuilder.random_access_padded
  rw [hne]
  simp only [Bool.false_eq_true, if_false, dif_neg h1]

theorem listResize_eq (v : List α) (n : Nat) (z : α) :
    listResize v n z = v.take n ++ List.replicate (n - v.length) z := by
  unfold listResize
  by_cases h : n ≤ v.length
  · have h0 : n - v.length = 0 := by omega
    rw [if_pos h, h0]
    simp
  · have ht : v.take n = v := List.take_of_length_le (by omega)
    rw [if_neg h, ht]

theorem listResize_length (v : List α) (n : Nat) (z : α) :
    (listResize v n z).length = n := by
  unfold listResize
  split
  · simp
    omega
  · simp
    omega

/-! ### Claim theorems -/

/-- C6: calling any entry point with an empty list fails fast — the
invalid-input check fires before any gate is allocated or equality
constraint issued, so no mutated builder state is ever produced. -/
theorem empty_list_fails_fast (b : CircuitBuilder) (ai ce : Target)
    (D ml : Nat) (ce2 : ExtensionTarget D) :
    b.random_access ai ce [] = none
    ∧ b.random_access_extension ai ce2 ([] : List (ExtensionTarget D)) = none
    ∧ b.random_access_padded ai ce2 [] ml = none :=
  ⟨rfl, rfl, rfl⟩

/-- C5: on a singleton list, each entry point allocates zero gates and
issues exactly one equality constraint (D coordinate equalities for the
extension variants) between the claimed element and the sole list element;
the result does not reference the access index, and the padded variant
short-circuits before padding, independently of `min_length`. -/
theorem singleton_short_circuit (b : CircuitBuilder) (ai ai' ce x : Target)
    (D ml ml' : Nat) (ce2 x2 : ExtensionTarget D) :
    (b.random_access ai ce [x] = some ⟨b.gates, b.connections ++ [(ce, x)]⟩)
    ∧ (b.random_access_extension ai ce2 [x2]
        = some ⟨b.gates,
            b.connections ++ (List.finRange D).map (fun c => (ce2 c, x2 c))⟩)
    ∧ (b.random_access_padded ai ce2 [x2] ml
        = some ⟨b.gates,
            b.connections ++ (List.finRange D).map (fun c => (ce2 c, x2 c))⟩)
    ∧ ((List.finRange D).map (fun c => (ce2 c, x2 c))).length = D
    ∧ b.random_access ai ce [x] = b.random_access ai' ce [x]
    ∧ b.random_access_extension ai ce2 [x2]
        = b.random_access_extension ai' ce2 [x2]
    ∧ b.random_access_padded ai ce2 [x2] ml
        = b.random_access_padded ai' ce2 [x2] ml' := by
  refine ⟨random_access_one b ai ce x, random_access_extension_one b ai ce2 x2,
    random_access_padded_one b ai ce2 x2 ml, by simp, rfl, ?_, ?_⟩
  · rw [random_access_extension_one, random_access_extension_one]
  · rw [random_access_padded_one, random_access_padded_one]

/-- C8: when no padding is needed (len v ≥ 2 and len v ≥ min_length), the
padded entry point is extensionally equal to the extension entry point on
the identical access index, claimed element, and unmodified list. -/
theorem padded_no_padding_eq {D : Nat} (b : CircuitBuilder) (ai : Target)
    (ce : ExtensionTarget D) (v : List (ExtensionTarget D)) (ml : Nat)
    (h2 : 2 ≤ v.length) (hge : ml ≤ v.length) :
    b.random_access_padded ai ce v ml = b.random_access_extension ai ce v := by
  rw [random_access_padded_eq b ai ce v ml h2, if_neg (by omega)]

theorem padded_no_padding_eq_witness :
    sampleBuilder.random_access_padded (vt 0) (sampleExt2 0)
        [sampleExt2 1, sampleExt2 2] 2
      = sampleBuilder.random_access_extension (vt 0) (sampleExt2 0)
          [sampleExt2 1, sampleExt2 2] :=
  padded_no_padding_eq sampleBuilder (vt 0) (sampleExt2 0)
    [sampleExt2 1, sampleExt2 2] 2 (by decide) (by decide)

/-- C7: whenever the padded entry point actually pads (2 ≤ len v <
min_length), the list handed to the extension lookup is the first 8
original elements followed by zero-extension fill — length exactly 8,
independent of `min_length`; in particular a list longer than 8 is
truncated to its first 8 elements. -/
theorem padded_pads_to_constant_eight {D : Nat} (b : CircuitBuilder)
    (ai : Target) (ce : ExtensionTarget D) (v : List (ExtensionTarget D))
    (ml : Nat) (h2 : 2 ≤ v.length) (hlt : v.length < ml) :
    b.random_access_padded ai ce v ml
      = b.random_access_extension ai ce
          (v.take 8 ++ List.replicate (8 - v.length) (b.zero_extension D))
    ∧ (v.take 8 ++ List.replicate (8 - v.length) (b.zero_extension D)).length = 8
    ∧ (8 < v.length →
        v.take 8 ++ List.replicate (8 - v.length) (b.zero_extension D)
          = v.take 8) := by
  refine ⟨?_, ?_, ?_⟩
  · rw [random_access_padded_eq b ai ce v ml h2, if_pos hlt, listResize_eq]
  · rw [← listResize_eq, listResize_length]
  · intro h8
    have h0 : 8 - v.length = 0 := by omega
    simp [h0]

theorem padded_pads_to_constant_eight_witness :
    sampleBuilder.random_access_padded (vt 0) (sampleExt2 0)
        [sampleExt2 1, sampleExt2 2] 9
      = sampleBuilder.random_access_extension (vt 0) (sampleExt2 0)
          ([sampleExt2 1, sampleExt2 2].take 8
            ++ List.replicate (8 - [sampleExt2 1, sampleExt2 2].length)
                 (sampleBuilder.zero_extension 2))
    ∧ ([sampleExt2 1, sampleExt2 2].take 8
        ++ List.replicate (8 - [sampleExt2 1, sampleExt2 2].length)
             (sampleBuilder.zero_extension 2)).length = 8
    ∧ (8 < [sampleExt2 1, sampleExt2 2].length →
        [sampleExt2 1, sampleExt2 2].take 8
          ++ List.replicate (8 - [sampleExt2 1, sampleExt2 2].length)
               (sampleBuilder.zero_extension 2)
          = [sampleExt2 1, sampleExt2 2].take 8) :=
  padded_pads_to_constant_eight sampleBuilder (vt 0) (sampleExt2 0)
    [sampleExt2 1, sampleExt2 2] 9 (by decide) (by decide)

/-- C4: for len(v) ≥ 2, `random_access` allocates exactly one
`RandomAccessGate` sized (1 copy, len v) at the next gate index, connects
each v[i] to the gate's list-item slot (i, copy 0), the access index to
the copy-0 access-index slot and the claimed element to the copy-0
claimed-element slot, adding exactly len v + 2 new equality constraints. -/
theorem random_access_gate_path (b : CircuitBuilder) (ai ce : Target)
    (v : List Target) (h : 2 ≤ v.length) :
    ∃ L : List (Target × Target),
      b.random_access ai ce v
        = some ⟨b.gates ++ [RandomAccessGate.new 1 v.length], b.connections ++ L⟩
      ∧ L.length = v.length + 2
      ∧ (∀ i, (hi : i < v.length) →
          (v.get ⟨i, hi⟩,
            Target.wire b.gates.length
              ((RandomAccessGate.new 1 v.length).wire_list_item i 0)) ∈ L)
      ∧ (ai, Target.wire b.gates.length
            ((RandomAccessGate.new 1 v.length).wire_access_index 0)) ∈ L
      ∧ (ce, Target.wire b.gates.length
            ((RandomAccessGate.new 1 v.length).wire_claimed_element 0)) ∈ L := by
  refine ⟨_, random_access_spec b ai ce v h, ?_, ?_, ?_, ?_⟩
  · simp [List.enum_length]
  · intro i hi
    refine List.mem_append_left _ ?_
    have hmem : (i, v.get ⟨i, hi⟩) ∈ v.enum := by
      simp only [List.get_eq_getElem]
      rw [← List.getElem_enum v i (by simpa [List.enum_length] using hi)]
      exact List.getElem_mem _
    have hmap := List.mem_map_of_mem
      (fun q : Nat × Target => (q.2,
        Target.wire b.gates.length
          ((RandomAccessGate.new 1 v.length).wire_list_item q.1 0))) hmem
    simpa using hmap
  · refine List.mem_append_right _ ?_
    simp
  · refine List.mem_append_right _ ?_
    simp

theorem random_access_gate_path_witness :
    ∃ L : List (Target × Target),
      sampleBuilder.random_access (vt 0) (vt 1) [vt 2, vt 3]
        = some ⟨sampleBuilder.gates ++ [RandomAccessGate.new 1 2],
                sampleBuilder.connections ++ L⟩
      ∧ L.length = 2 + 2
      ∧ (∀ i, (hi : i < ([vt 2, vt 3] : List Target).length) →
          (([vt 2, vt 3] : List Target).get ⟨i, hi⟩,
            Target.wire sampleBuilder.gates.length
              ((RandomAccessGate.new 1 2).wire_list_item i 0)) ∈ L)
      ∧ (vt 0, Target.wire sampleBuilder.gates.length
            ((RandomAccessGate.new 1 2).wire_access_index 0)) ∈ L
      ∧ (vt 1, Target.wire sampleBuilder.gates.length
            ((RandomAccessGate.new 1 2).wire_claimed_element 0)) ∈ L :=
  random_access_gate_path sampleBuilder (vt 0) (vt 1) [vt 2, vt 3] (by decide)

/-- C3: for len(v) ≥ 2, `random_access_extension` allocates exactly one
`RandomAccessGate` sized (D copies, len v) at the next gate index, and for
each copy c < D connects coordinate c of v[i] to list-item slot (i, c) for
every i, the one shared access index to the copy-c access-index slot, and
coordinate c of the claimed element to the copy-c claimed-element slot —
in total one new gate and D × (len v + 2) new equality constraints. -/
theorem random_access_extension_gate_path {D : Nat} (b : CircuitBuilder)
    (ai : Target) (ce : ExtensionTarget D) (v : List (ExtensionTarget D))
    (h : 2 ≤ v.length) :
    ∃ L : List (Target × Target),
      b.random_access_extension ai ce v
        = some ⟨b.gates ++ [RandomAccessGate.new D v.length], b.connections ++ L⟩
      ∧ L.length = D * (v.length + 2)
      ∧ (∀ c : Fin D, ∀ i, (hi : i < v.length) →
          (v.get ⟨i, hi⟩ c,
            Target.wire b.gates.length
              ((RandomAccessGate.new D v.length).wire_list_item i c.val)) ∈ L)
      ∧ (∀ c : Fin D,
          (ai, Target.wire b.gates.length
              ((RandomAccessGate.new D v.length).wire_access_index c.val)) ∈ L)
      ∧ (∀ c : Fin D,
          (ce c, Target.wire b.gates.length
              ((RandomAccessGate.new D v.length).wire_claimed_element c.val)) ∈ L) := by
  refine ⟨_, random_access_extension_spec b ai ce v h, ?_, ?_, ?_, ?_⟩
  · rw [List.length_flatten, List.map_map]
    have hconst :
        (List.map (List.length ∘ fun copy : Fin D =>
          v.enum.map (fun q => (q.2 copy,
            Target.wire b.gates.length
              ((RandomAccessGate.new D v.length).wire_list_item q.1 copy.val)))
          ++ [(ai, Target.wire b.gates.length
                ((RandomAccessGate.new D v.length).wire_access_index copy.val)),
              (ce copy, Target.wire b.gates.length
                ((RandomAccessGate.new D v.length).wire_claimed_element copy.val))])
          (List.finRange D))
        = List.replicate D (v.length + 2) := by
      refine List.eq_replicate_iff.mpr ⟨by simp, ?_⟩
      intro x hx
      obtain ⟨c, _, rfl⟩ := List.mem_map.mp hx
      simp [List.enum_length]
    rw [hconst, List.sum_replicate, smul_eq_mul]
  · intro c i hi
    refine List.mem_flatten.mpr ⟨_, List.mem_map_of_mem _ (List.mem_finRange c), ?_⟩
    refine List.mem_append_left _ ?_
    have hmem : (i, v.get ⟨i, hi⟩) ∈ v.enum := by
      simp only [List.get_eq_getElem]
      rw [← List.getElem_enum v i (by simpa [List.enum_length] using hi)]
      exact List.getElem_mem _
    have hmap := List.mem_map_of_mem
      (fun q : Nat × ExtensionTarget D => (q.2 c,
        Target.wire b.gates.length
          ((RandomAccessGate.new D v.length).wire_list_item q.1 c.val))) hmem
    simpa using hmap
  · intro c
    refine List.mem_flatten.mpr ⟨_, List.mem_map_of_mem _ (List.mem_finRange c), ?_⟩
    refine List.mem_append_right _ ?_
    simp
  · intro c
    refine List.mem_flatten.mpr ⟨_, List.mem_map_of_mem _ (List.mem_finRange c), ?_⟩
    refine List.mem_append_right _ ?_
    simp

theorem random_access_extension_gate_path_witness :
    ∃ L : List (Target × Target),
      sampleBuilder.random_access_extension (vt 0) (sampleExt2 0)
          [sampleExt2 1, sampleExt2 2]
        = some ⟨sampleBuilder.gates ++ [RandomAccessGate.new 2 2],
                sampleBuilder.connections ++ L⟩
      ∧ L.length = 2 * (2 + 2)
      ∧ (∀ c : Fin 2, ∀ i,
          (hi : i < ([sampleExt2 1, sampleExt2 2] : List (ExtensionTarget 2)).length) →
          (([sampleExt2 1, sampleExt2 2] : List (ExtensionTarget 2)).get ⟨i, hi⟩ c,
            Target.wire sampleBuilder.gates.length
              ((RandomAccessGate.new 2 2).wire_list_item i c.val)) ∈ L)
      ∧ (∀ c : Fin 2,
          (vt 0, Target.wire sampleBuilder.gates.length
              ((RandomAccessGate.new 2 2).wire_access_index c.val)) ∈ L)
      ∧ (∀ c : Fin 2,
          (sampleExt2 0 c, Target.wire sampleBuilder.gates.length
              ((RandomAccessGate.new 2 2).wire_claimed_element c.val)) ∈ L) :=
  random_access_extension_gate_path sampleBuilder (vt 0) (sampleExt2 0)
    [sampleExt2 1, sampleExt2 2] (by decide)

/-- C1 (counter-evidence): with a list of length 2 and min_length = 9, the
padded entry point resizes the list to the fixed constant 8, so the list
handed to `random_access_extension` — hence the allocated gate's length
parameter — is 8, strictly below min_length, contradicting the claim that
it is at least min_length for every value of min_length. -/
theorem padded_underpads_below_min_length :
    (sampleBuilder.random_access_padded (vt 0) (sampleExt2 0)
        [sampleExt2 1, sampleExt2 2] 9).map CircuitBuilder.gates
      = some [RandomAccessGate.new 2 8]
    ∧ (RandomAccessGate.new 2 8).vecSize < 9 := by
  refine ⟨?_, ?_⟩ <;> decide

/-- C2 (counter-evidence): with a list of length 9 and min_length = 10,
the resize to the constant 8 truncates the list — the padded entry point
delegates to `random_access_extension` on the first 8 elements only, and
the element at original position 8 is absent from the padded list, so the
padded list does not agree with the original at every position below
len v. -/
theorem padded_truncates_dropping_element :
    sampleBuilder.random_access_padded (vt 0) (sampleExt1 100)
        ((List.range 9).map sampleExt1) 10
      = sampleBuilder.random_access_extension (vt 0) (sampleExt1 100)
          (((List.range 9).map sampleExt1).take 8)
    ∧ (((List.range 9).map sampleExt1).take 8).length = 8
    ∧ ((List.range 9).map sampleExt1).length = 9
    ∧ sampleExt1 8 ∈ (List.range 9).map sampleExt1
    ∧ sampleExt1 8 ∉ ((List.range 9).map sampleExt1).take 8 := by
  refine ⟨?_, ?_, ?_, ?_, ?_⟩ <;> decide

/-! ### Delta lemmas: the emitted gates and connections depend only on the
number of gates already in the builder -/

theorem random_access_delta_eq (b₁ b₂ : CircuitBuilder) (ai ce : Target)
    (v : List Target) (hg : b₁.gates.length = b₂.gates.length) :
    (b₁.random_access ai ce v).map
      (fun r => (r.gates.drop b₁.gates.length,
                 r.connections.drop b₁.connections.length))
    = (b₂.random_access ai ce v).map
      (fun r => (r.gates.drop b₂.gates.length,
                 r.connections.drop b₂.connections.length)) := by
  match v with
  | [] => rfl
  | [x] =>
    rw [random_access_one, random_access_one]
    simp [Option.map_some', List.drop_left]
  | x :: y :: rest =>
    have h2 : 2 ≤ (x :: y :: rest).length := by simp
    rw [random_access_spec b₁ ai ce _ h2, random_access_spec b₂ ai ce _ h2]
    simp only [Option.map_some', List.drop_left]
    rw [hg]

theorem random_access_extension_delta_eq {D : Nat} (b₁ b₂ : CircuitBuilder)
    (ai : Target) (ce : ExtensionTarget D) (v : List (ExtensionTarget D))
    (hg : b₁.gates.length = b₂.gates.length) :
    (b₁.random_access_extension ai ce v).map
      (fun r => (r.gates.drop b₁.gates.length,
                 r.connections.drop b₁.connections.length))
    = (b₂.random_access_extension ai ce v).map
      (fun r => (r.gates.drop b₂.gates.length,
                 r.connections.drop b₂.connections.length)) := by
  match v with
  | [] => rfl
  | [x] =>
    rw [random_access_extension_one, random_access_extension_one]
    simp [Option.map_some', List.drop_left]
  | x :: y :: rest =>
    have h2 : 2 ≤ (x :: y :: rest).length := by simp
    rw [random_access_extension_spec b₁ ai ce _ h2,
        random_access_extension_spec b₂ ai ce _ h2]
    simp only [Option.map_some', List.drop_left]
    rw [hg]

theorem random_access_padded_delta_eq {D : Nat} (b₁ b₂ : CircuitBuilder)
    (ai : Target) (ce : ExtensionTarget D) (v : List (ExtensionTarget D))
    (ml : Nat) (hg : b₁.gates.length = b₂.gates.length) :
    (b₁.random_access_padded ai ce v ml).map
      (fun r => (r.gates.drop b₁.gates.length,
                 r.connections.drop b₁.connections.length))
    = (b₂.random_access_padded ai ce v ml).map
      (fun r => (r.gates.drop b₂.gates.length,
                 r.connections.drop b₂.connections.length)) := by
  match v with
  | [] => rfl
  | [x] =>
    rw [random_access_padded_one, random_access_padded_one]
    simp [Option.map_some', List.drop_left]
  | x :: y :: rest =>
    have h2 : 2 ≤ (x :: y :: rest).length := by simp
    rw [random_access_padded_eq b₁ ai ce _ ml h2,
        random_access_padded_eq b₂ ai ce _ ml h2]
    exact random_access_extension_delta_eq b₁ b₂ ai ce _ hg

/-- C9: every entry point is deterministic — from equal builder states and
equal arguments the resulting builder states are identical — and the
emitted delta (the new gates and new equality constraints, including every
gate index and wire index they mention) depends only on how many gates the
builder already holds, i.e. only on the call sequence so far. -/
theorem entry_points_deterministic {D : Nat} (b₁ b₂ : CircuitBuilder)
    (ai ce : Target) (ce2 : ExtensionTarget D) (v : List Target)
    (v2 : List (ExtensionTarget D)) (ml : Nat)
    (hg : b₁.gates.length = b₂.gates.length) :
    (b₁ = b₂ →
      b₁.random_access ai ce v = b₂.random_access ai ce v
      ∧ b₁.random_access_extension ai ce2 v2
          = b₂.random_access_extension ai ce2 v2
      ∧ b₁.random_access_padded ai ce2 v2 ml
          = b₂.random_access_padded ai ce2 v2 ml)
    ∧ (b₁.random_access ai ce v).map
        (fun r => (r.gates.drop b₁.gates.length,
                   r.connections.drop b₁.connections.length))
      = (b₂.random_access ai ce v).map
        (fun r => (r.gates.drop b₂.gates.length,
                   r.connections.drop b₂.connections.length))
    ∧ (b₁.random_access_extension ai ce2 v2).map
        (fun r => (r.gates.drop b₁.gates.length,
                   r.connections.drop b₁.connections.length))
      = (b₂.random_access_extension ai ce2 v2).map
        (fun r => (r.gates.drop b₂.gates.length,
                   r.connections.drop b₂.connections.length))
    ∧ (b₁.random_access_padded ai ce2 v2 ml).map
        (fun r => (r.gates.drop b₁.gates.length,
                   r.connections.drop b₁.connections.length))
      = (b₂.random_access_padded ai ce2 v2 ml).map
        (fun r => (r.gates.drop b₂.gates.length,
                   r.connections.drop b₂.connections.length)) := by
  refine ⟨?_, random_access_delta_eq b₁ b₂ ai ce v hg,
    random_access_extension_delta_eq b₁ b₂ ai ce2 v2 hg,
    random_access_padded_delta_eq b₁ b₂ ai ce2 v2 ml hg⟩
  rintro rfl
  exact ⟨rfl, rfl, rfl⟩

theorem entry_points_deterministic_witness :
    (sampleBuilder' = sampleBuilder →
      sampleBuilder'.random_access (vt 0) (vt 1) [vt 2, vt 3]
        = sampleBuilder.random_access (vt 0) (vt 1) [vt 2, vt 3]
      ∧ sampleBuilder'.random_access_extension (vt 0) (sampleExt2 0)
            [sampleExt2 1, sampleExt2 2]
          = sampleBuilder.random_access_extension (vt 0) (sampleExt2 0)
              [sampleExt2 1, sampleExt2 2]
      ∧ sampleBuilder'.random_access_padded (vt 0) (sampleExt2 0)
            [sampleExt2 1, sampleExt2 2] 3
          = sampleBuilder.random_access_padded (vt 0) (sampleExt2 0)
              [sampleExt2 1, sampleExt2 2] 3)
    ∧ (sampleBuilder'.random_access (vt 0) (vt 1) [vt 2, vt 3]).map
        (fun r => (r.gates.drop sampleBuilder'.gates.length,
                   r.connections.drop sampleBuilder'.connections.length))
      = (sampleBuilder.random_access (vt 0) (vt 1) [vt 2, vt 3]).map
        (fun r => (r.gates.drop sampleBuilder.gates.length,
                   r.connections.drop sampleBuilder.connections.length))
    ∧ (sampleBuilder'.random_access_extension (vt 0) (sampleExt2 0)
          [sampleExt2 1, sampleExt2 2]).map
        (fun r => (r.gates.drop sampleBuilder'.gates.length,
                   r.connections.drop sampleBuilder'.connections.length))
      = (sampleBuilder.random_access_extension (vt 0) (sampleExt2 0)
          [sampleExt2 1, sampleExt2 2]).map
        (fun r => (r.gates.drop sampleBuilder.gates.length,
                   r.connections.drop sampleBuilder.connections.length))
    ∧ (sampleBuilder'.random_access_padded (vt 0) (sampleExt2 0)
          [sampleExt2 1, sampleExt2 2] 3).map
        (fun r => (r.gates.drop sampleBuilder'.gates.length,
                   r.connections.drop sampleBuilder'.connections.length))
      = (sampleBuilder.random_access_padded (vt 0) (sampleExt2 0)
          [sampleExt2 1, sampleExt2 2] 3).map
        (fun r => (r.gates.drop sampleBuilder.gates.length,
                   r.connections.drop sampleBuilder.connections.length)) :=
  entry_points_deterministic sampleBuilder' sampleBuilder (vt 0) (vt 1)
    (sampleExt2 0) [vt 2, vt 3] [sampleExt2 1, sampleExt2 2] 3 (by decide)

/-! ### Frame lemmas: each entry point only appends gates and connections
among pre-existing wires and the new gate's wires -/

theorem random_access_frame_aux (b : CircuitBuilder) (ai ce : Target)
    (v : List Target) (b' : CircuitBuilder)
    (h : b.random_access ai ce v = some b') :
    (b'.gates = b.gates ∨ ∃ g, b'.gates = b.gates ++ [g])
    ∧ ∃ L, b'.connections = b.connections ++ L
      ∧ ∀ p ∈ L,
          (p.1 = ai ∨ p.1 = ce ∨ p.1 ∈ v)
          ∧ (p.2 = ai ∨ p.2 = ce ∨ p.2 ∈ v
             ∨ ∃ off, p.2 = Target.wire b.gates.length off) := by
  match v with
  | [] => simp [CircuitBuilder.random_access] at h
  | [x] =>
    rw [random_access_one] at h
    obtain rfl := Option.some.inj h
    refine ⟨Or.inl rfl, [(ce, x)], rfl, ?_⟩
    intro p hp
    rw [List.mem_singleton] at hp
    subst hp
    exact ⟨Or.inr (Or.inl rfl), Or.inr (Or.inr (Or.inl (by simp)))⟩
  | x :: y :: rest =>
    have h2 : 2 ≤ (x :: y :: rest).length := by simp
    rw [random_access_spec b ai ce _ h2] at h
    obtain rfl := Option.some.inj h
    refine ⟨Or.inr ⟨_, rfl⟩, _, rfl, ?_⟩
    intro p hp
    rcases List.mem_append.mp hp with hp | hp
    · obtain ⟨q, hq, rfl⟩ := List.mem_map.mp hp
      exact ⟨Or.inr (Or.inr (List.snd_mem_of_mem_enum hq)),
             Or.inr (Or.inr (Or.inr ⟨_, rfl⟩))⟩
    · have hp2 : p = (ai, Target.wire b.gates.length
            ((RandomAccessGate.new 1 (x :: y :: rest).length).wire_access_index 0))
          ∨ p = (ce, Target.wire b.gates.length
            ((RandomAccessGate.new 1 (x :: y :: rest).length).wire_claimed_element 0)) := by
        simpa using hp
      rcases hp2 with rfl | rfl
      · exact ⟨Or.inl rfl, Or.inr (Or.inr (Or.inr ⟨_, rfl⟩))⟩
      · exact ⟨Or.inr (Or.inl rfl), Or.inr (Or.inr (Or.inr ⟨_, rfl⟩))⟩

theorem random_access_extension_frame_aux {D : Nat} (b : CircuitBuilder)
    (ai : Target) (ce : ExtensionTarget D) (v : List (ExtensionTarget D))
    (b' : CircuitBuilder)
    (h : b.random_access_extension ai ce v = some b') :
    (b'.gates = b.gates ∨ ∃ g, b'.gates = b.gates ++ [g])
    ∧ ∃ L, b'.connections = b.connections ++ L
      ∧ ∀ p ∈ L,
          (p.1 = ai ∨ (∃ c, p.1 = ce c) ∨ (∃ e ∈ v, ∃ c, p.1 = e c))
          ∧ ((∃ e ∈ v, ∃ c, p.2 = e c)
             ∨ ∃ off, p.2 = Target.wire b.gates.length off) := by
  match v with
  | [] => simp [CircuitBuilder.random_access_extension] at h
  | [x] =>
    rw [random_access_extension_one] at h
    obtain rfl := Option.some.inj h
    refine ⟨Or.inl rfl, _, rfl, ?_⟩
    intro p hp
    obtain ⟨c, _, rfl⟩ := List.mem_map.mp hp
    exact ⟨Or.inr (Or.inl ⟨c, rfl⟩), Or.inl ⟨x, by simp, c, rfl⟩⟩
  | x :: y :: rest =>
    have h2 : 2 ≤ (x :: y :: rest).length := by simp
    rw [random_access_extension_spec b ai ce _ h2] at h
    obtain rfl := Option.some.inj h
    refine ⟨Or.inr ⟨_, rfl⟩, _, rfl, ?_⟩
    intro p hp
    obtain ⟨blk, hblk, hpblk⟩ := List.mem_flatten.mp hp
    obtain ⟨c, _, rfl⟩ := List.mem_map.mp hblk
    rcases List.mem_append.mp hpblk with hpi | hpi
    · obtain ⟨q, hq, rfl⟩ := List.mem_map.mp hpi
      exact ⟨Or.inr (Or.inr ⟨q.2, List.snd_mem_of_mem_enum hq, c, rfl⟩),
             Or.inr ⟨_, rfl⟩⟩
    · have hp2 : p = (ai, Target.wire b.gates.length
            ((RandomAccessGate.new D (x :: y :: rest).length).wire_access_index c.val))
          ∨ p = (ce c, Target.wire b.gates.length
            ((RandomAccessGate.new D (x :: y :: rest).length).wire_claimed_element c.val)) := by
        simpa using hpi
      rcases hp2 with rfl | rfl
      · exact ⟨Or.inl rfl, Or.inr ⟨_, rfl⟩⟩
      · exact ⟨Or.inr (Or.inl ⟨c, rfl⟩), Or.inr ⟨_, rfl⟩⟩

theorem random_access_padded_frame_aux {D : Nat} (b : CircuitBuilder)
    (ai : Target) (ce : ExtensionTarget D) (v : List (ExtensionTarget D))
    (ml : Nat) (b' : CircuitBuilder)
    (h : b.random_access_padded ai ce v ml = some b') :
    (b'.gates = b.gates ∨ ∃ g, b'.gates = b.gates ++ [g])
    ∧ ∃ L, b'.connections = b.connections ++ L
      ∧ ∀ p ∈ L,
          (p.1 = ai ∨ (∃ c, p.1 = ce c) ∨ (∃ e ∈ v, ∃ c, p.1 = e c)
            ∨ p.1 = Target.zeroConst)
          ∧ ((∃ e ∈ v, ∃ c, p.2 = e c) ∨ p.2 = Target.zeroConst
             ∨ ∃ off, p.2 = Target.wire b.gates.length off) := by
  match v with
  | [] => simp [CircuitBuilder.random_access_padded] at h
  | [x] =>
    rw [random_access_padded_one] at h
    obtain rfl := Option.some.inj h
    refine ⟨Or.inl rfl, _, rfl, ?_⟩
    intro p hp
    obtain ⟨c, _, rfl⟩ := List.mem_map.mp hp
    exact ⟨Or.inr (Or.inl ⟨c, rfl⟩), Or.inl ⟨x, by simp, c, rfl⟩⟩
  | x :: y :: rest =>
    have h2 : 2 ≤ (x :: y :: rest).length := by simp
    rw [random_access_padded_eq b ai ce _ ml h2] at h
    obtain ⟨hg, L, hL, hmem⟩ := random_access_extension_frame_aux b ai ce _ b' h
    refine ⟨hg, L, hL, ?_⟩
    intro p hp
    obtain ⟨hfst, hsnd⟩ := hmem p hp
    have hlist : ∀ e, e ∈ (if (x :: y :: rest).length < ml
          then listResize (x :: y :: rest) 8 (b.zero_extension D)
          else x :: y :: rest) →
        e ∈ x :: y :: rest ∨ e = b.zero_extension D := by
      intro e he
      by_cases hc : (x :: y :: rest).length < ml
      · rw [if_pos hc, listResize_eq] at he
        rcases List.mem_append.mp he with he | he
        · exact Or.inl (List.mem_of_mem_take he)
        · exact Or.inr (List.eq_of_mem_replicate he)
      · rw [if_neg hc] at he
        exact Or.inl he
    constructor
    · rcases hfst with hfst | hfst | hfst
      · exact Or.inl hfst
      · exact Or.inr (Or.inl hfst)
      · obtain ⟨e, he, c, hpc⟩ := hfst
        rcases hlist e he with he2 | rfl
        · exact Or.inr (Or.inr (Or.inl ⟨e, he2, c, hpc⟩))
        · exact Or.inr (Or.inr (Or.inr hpc))
    · rcases hsnd with hsnd | hsnd
      · obtain ⟨e, he, c, hpc⟩ := hsnd
        rcases hlist e he with he2 | rfl
        · exact Or.inl ⟨e, he2, c, hpc⟩
        · exact Or.inr (Or.inl hpc)
      · exact Or.inr (Or.inr hsnd)

/-- C10: no entry point returns a value or manufactures a new wire for the
caller — whenever an invocation succeeds it appends at most one gate to
the gate list and appends equality constraints whose left wire is a
caller-supplied wire (access index, claimed-element coordinate, list
element (coordinate), or the zero-padding constant) and whose right wire
is either such a caller wire, the zero constant, or a wire of the newly
allocated gate; the previous gates and connections are preserved as
prefixes and nothing else in the builder state changes. -/
theorem entry_points_frame {D : Nat} (b : CircuitBuilder) (ai ce : Target)
    (v : List Target) (ce2 : ExtensionTarget D)
    (v2 v3 : List (ExtensionTarget D)) (ml : Nat)
    (b₁ b₂ b₃ : CircuitBuilder)
    (h₁ : b.random_access ai ce v = some b₁)
    (h₂ : b.random_access_extension ai ce2 v2 = some b₂)
    (h₃ : b.random_access_padded ai ce2 v3 ml = some b₃) :
    ((b₁.gates = b.gates ∨ ∃ g, b₁.gates = b.gates ++ [g])
      ∧ ∃ L, b₁.connections = b.connections ++ L
        ∧ ∀ p ∈ L,
            (p.1 = ai ∨ p.1 = ce ∨ p.1 ∈ v)
            ∧ (p.2 = ai ∨ p.2 = ce ∨ p.2 ∈ v
               ∨ ∃ off, p.2 = Target.wire b.gates.length off))
    ∧ ((b₂.gates = b.gates ∨ ∃ g, b₂.gates = b.gates ++ [g])
      ∧ ∃ L, b₂.connections = b.connections ++ L
        ∧ ∀ p ∈ L,
            (p.1 = ai ∨ (∃ c, p.1 = ce2 c) ∨ (∃ e ∈ v2, ∃ c, p.1 = e c))
            ∧ ((∃ e ∈ v2, ∃ c, p.2 = e c)
               ∨ ∃ off, p.2 = Target.wire b.gates.length off))
    ∧ ((b₃.gates = b.gates ∨ ∃ g, b₃.gates = b.gates ++ [g])
      ∧ ∃ L, b₃.connections = b.connections ++ L
        ∧ ∀ p ∈ L,
            (p.1 = ai ∨ (∃ c, p.1 = ce2 c) ∨ (∃ e ∈ v3, ∃ c, p.1 = e c)
              ∨ p.1 = Target.zeroConst)
            ∧ ((∃ e ∈ v3, ∃ c, p.2 = e c) ∨ p.2 = Target.zeroConst
               ∨ ∃ off, p.2 = Target.wire b.gates.length off)) :=
  ⟨random_access_frame_aux b ai ce v b₁ h₁,
   random_access_extension_frame_aux b ai ce2 v2 b₂ h₂,
   random_access_padded_frame_aux b ai ce2 v3 ml b₃ h₃⟩

theorem entry_points_frame_witness :
    (((⟨[], [(vt 1, vt 2)]⟩ : CircuitBuilder).gates = sampleBuilder.gates
        ∨ ∃ g, (⟨[], [(vt 1, vt 2)]⟩ : CircuitBuilder).gates
            = sampleBuilder.gates ++ [g])
      ∧ ∃ L, (⟨[], [(vt 1, vt 2)]⟩ : CircuitBuilder).connections
            = sampleBuilder.connections ++ L
        ∧ ∀ p ∈ L,
            (p.1 = vt 0 ∨ p.1 = vt 1 ∨ p.1 ∈ [vt 2])
            ∧ (p.2 = vt 0 ∨ p.2 = vt 1 ∨ p.2 ∈ [vt 2]
               ∨ ∃ off, p.2 = Target.wire sampleBuilder.gates.length off))
    ∧ (((⟨[], [(vt 10, vt 11)]⟩ : CircuitBuilder).gates = sampleBuilder.gates
        ∨ ∃ g, (⟨[], [(vt 10, vt 11)]⟩ : CircuitBuilder).gates
            = sampleBuilder.gates ++ [g])
      ∧ ∃ L, (⟨[], [(vt 10, vt 11)]⟩ : CircuitBuilder).connections
            = sampleBuilder.connections ++ L
        ∧ ∀ p ∈ L,
            (p.1 = vt 0 ∨ (∃ c, p.1 = sampleExt1 10 c)
              ∨ (∃ e ∈ [sampleExt1 11], ∃ c, p.1 = e c))
            ∧ ((∃ e ∈ [sampleExt1 11], ∃ c, p.2 = e c)
               ∨ ∃ off, p.2 = Target.wire sampleBuilder.gates.length off))
    ∧ (((⟨[], [(vt 10, vt 12)]⟩ : CircuitBuilder).gates = sampleBuilder.gates
        ∨ ∃ g, (⟨[], [(vt 10, vt 12)]⟩ : CircuitBuilder).gates
            = sampleBuilder.gates ++ [g])
      ∧ ∃ L, (⟨[], [(vt 10, vt 12)]⟩ : CircuitBuilder).connections
            = sampleBuilder.connections ++ L
        ∧ ∀ p ∈ L,
            (p.1 = vt 0 ∨ (∃ c, p.1 = sampleExt1 10 c)
              ∨ (∃ e ∈ [sampleExt1 12], ∃ c, p.1 = e c)
              ∨ p.1 = Target.zeroConst)
            ∧ ((∃ e ∈ [sampleExt1 12], ∃ c, p.2 = e c) ∨ p.2 = Target.zeroConst
               ∨ ∃ off, p.2 = Target.wire sampleBuilder.gates.length off)) :=
  entry_points_frame sampleBuilder (vt 0) (vt 1) [vt 2] (sampleExt1 10)
    [sampleExt1 11] [sampleExt1 12] 5
    ⟨[], [(vt 1, vt 2)]⟩ ⟨[], [(vt 10, vt 11)]⟩ ⟨[], [(vt 10, vt 12)]⟩
    (by decide) (by decide) (by decide)
